import Mathlib

/-!
Verification of the Hadoop-streaming sparse matrix-multiply pipeline
(`MatMul/mapper.py`, the Key Expander, and `MatMul/reducer.py`, the Grouped
Joiner).  Lines of text are modelled as `List Char`; Python `float` values are
modelled as exact rationals `ℚ` (double-precision rounding itself is outside
the model; the control flow — in particular the exact `total != 0.0`
comparison — is modelled faithfully).  Python string primitives (`str.strip`,
`str.split` with and without maxsplit, `int(...)`, `float(...)`) are given
executable models below; non-finite float literals such as `inf`/`nan`, and
underscore digit separators, are outside the modelled input domain.
-/

set_option autoImplicit false

-- Batteries marks the `Rat` field operations irreducible, which blocks
-- `decide` on concrete rational computations; restore default transparency
-- (kernel soundness is unaffected, this only changes elaborator unfolding).
attribute [local semireducible] Rat.add Rat.mul Rat.inv Rat.sub

namespace MatMul

/-- Characters treated as whitespace by Python's `str.strip()` (ASCII part). -/
def pyWsChar (c : Char) : Bool :=
  c == ' ' || c == '\t' || c == '\n' || c == '\r' || c == '\x0b' || c == '\x0c'

/-- Model of Python `str.strip()`. -/
def trimWs (l : List Char) : List Char :=
  ((l.dropWhile pyWsChar).reverse.dropWhile pyWsChar).reverse

/-- Model of Python `s.split(sep)` for a one-character separator:
splits on every occurrence, always returns at least one (possibly empty) part. -/
def splitCh (sep : Char) : List Char → List (List Char)
  | [] => [[]]
  | c :: cs =>
    match splitCh sep cs with
    | [] => [[]]
    | f :: rest => if c = sep then [] :: f :: rest else (c :: f) :: rest

/-- Model of Python `s.split(sep, 1)` followed by unpacking into two names:
`some (before, after)` at the first separator, `none` when the separator is
absent (in which case the Python unpacking raises). -/
def splitFirst (sep : Char) : List Char → Option (List Char × List Char)
  | [] => none
  | c :: cs =>
    if c = sep then some ([], cs)
    else (splitFirst sep cs).map (fun p => (c :: p.1, p.2))

/-- Join parts with a one-character separator (inverse of `splitCh`). -/
def joinWith (sep : Char) : List (List Char) → List Char
  | [] => []
  | [x] => x
  | x :: y :: xs => x ++ sep :: joinWith sep (y :: xs)

/-- Model of Python `s.split(sep, 2)` followed by unpacking into three names:
`none` when fewer than three raw fields exist (Python raises on unpacking);
otherwise the third component keeps any further separators. -/
def split2 (sep : Char) (l : List Char) : Option (List Char × List Char × List Char) :=
  match splitCh sep l with
  | a :: b :: c :: rest => some (a, b, joinWith sep (c :: rest))
  | _ => none

/-- Numeric value of a digit string (most significant first). -/
def digitsToNat (l : List Char) : ℕ :=
  l.foldl (fun a c => a * 10 + (c.toNat - 48)) 0

/-- Model of Python `int(s)`: optional surrounding whitespace, optional sign,
then a nonempty run of decimal digits. -/
def pyInt? (l : List Char) : Option Int :=
  let t := trimWs l
  match t with
  | '+' :: r =>
    if r.isEmpty then none
    else if r.all Char.isDigit then some (digitsToNat r : Int) else none
  | '-' :: r =>
    if r.isEmpty then none
    else if r.all Char.isDigit then some (-(digitsToNat r : Int)) else none
  | r =>
    if r.isEmpty then none
    else if r.all Char.isDigit then some (digitsToNat r : Int) else none

/-- The digit run of a float exponent: nonempty, all digits, scaling the
mantissa up or down according to the exponent sign. -/
def pyExpDigits (m : ℚ) (pos : Bool) (r2 : List Char) : Option ℚ :=
  if r2.isEmpty then none
  else if r2.all Char.isDigit then
    some (if pos then m * 10 ^ digitsToNat r2 else m / 10 ^ digitsToNat r2)
  else none

/-- Sign handling after the `e`/`E` of a float exponent. -/
def pyExpSign (m : ℚ) : List Char → Option ℚ
  | c2 :: t =>
    if c2 = '+' then pyExpDigits m true t
    else if c2 = '-' then pyExpDigits m false t
    else pyExpDigits m true (c2 :: t)
  | [] => none

/-- Optional exponent suffix of a Python float literal: either nothing, or
`e`/`E`, an optional sign and a nonempty run of digits ending the string. -/
def pyExpPart (m : ℚ) : List Char → Option ℚ
  | [] => some m
  | c :: r => if c = 'e' ∨ c = 'E' then pyExpSign m r else none

/-- Continuation of the float parse after the integer-part digits `ip`: a
decimal point with fraction digits and optional exponent, or directly an
exponent, or end of string. -/
def pyFloatTail (ip : List Char) : List Char → Option ℚ
  | c1 :: r2 =>
    if c1 = '.' then
      if ip.isEmpty && (r2.takeWhile Char.isDigit).isEmpty then none
      else
        pyExpPart
          ((digitsToNat ip : ℚ) +
            (digitsToNat (r2.takeWhile Char.isDigit) : ℚ) /
              10 ^ (r2.takeWhile Char.isDigit).length)
          (r2.dropWhile Char.isDigit)
    else if ip.isEmpty then none
    else pyExpPart (digitsToNat ip : ℚ) (c1 :: r2)
  | [] => if ip.isEmpty then none else some (digitsToNat ip : ℚ)

/-- Unsigned part of a Python float literal: digits, optionally a decimal
point with further digits (at least one digit somewhere), optional exponent. -/
def pyFloatCore (l : List Char) : Option ℚ :=
  pyFloatTail (l.takeWhile Char.isDigit) (l.dropWhile Char.isDigit)

/-- Model of Python `float(s)` restricted to finite decimal literals:
optional surrounding whitespace, optional sign, then `pyFloatCore`. -/
def pyFloat? (l : List Char) : Option ℚ :=
  match trimWs l with
  | c :: r =>
    if c = '+' then pyFloatCore r
    else if c = '-' then (pyFloatCore r).map Neg.neg
    else pyFloatCore (c :: r)
  | [] => none

/-- Decimal digits of a natural number, most significant first. -/
def natChars (n : ℕ) : List Char :=
  Nat.toDigits 10 n

/-- Decimal rendering of an integer, as Python `str(int)`. -/
def intChars (i : Int) : List Char :=
  if i < 0 then '-' :: natChars i.natAbs else natChars i.natAbs

/-- Model of Python `repr(float)` (which `str.format` uses) on the modelled
domain: values with a finite decimal expansion.  An integral value prints with
a trailing `.0`, exactly as CPython prints a float of integral value; other
decimally-representable values print their shortest decimal expansion.
Rationals with no short decimal expansion are outside the modelled domain and
get a `num/den` fallback rendering. -/
def pyRepr (q : ℚ) : List Char :=
  if q.den = 1 then intChars q.num ++ ['.', '0']
  else
    match (List.range 17).find? (fun d => (q * (10 : ℚ) ^ (d + 1)).den = 1) with
    | some d =>
      let n : Int := (q * (10 : ℚ) ^ (d + 1)).num
      let s0 := natChars n.natAbs
      let s1 := List.replicate (d + 2 - s0.length) '0' ++ s0
      let s2 := s1.take (s1.length - (d + 1)) ++ '.' :: s1.drop (s1.length - (d + 1))
      if n < 0 then '-' :: s2 else s2
    | none => intChars q.num ++ '/' :: natChars q.den

/-- Model of Python `str.upper()` on ASCII strings. -/
def upperL (l : List Char) : List Char :=
  l.map Char.toUpper

/-! ## Grouped Joiner (reducer.py), structured core

The reducer's per-key accumulators `Avals`/`Bvals` are Python
`defaultdict(float)` objects: insertion-ordered maps from inner index to a
running sum, with `acc[j] += v` starting from `0.0` for a missing key.  They
are modelled as insertion-ordered association lists. -/

/-- Insertion-ordered map from inner index to accumulated value. -/
abbrev AccMap := List (Int × ℚ)

/-- Model of `acc[j] += v` on a `defaultdict(float)`: add into the entry for
`j` in place if present, else append `(j, 0.0 + v)` at the end. -/
def accAdd : AccMap → Int → ℚ → AccMap
  | [], j, v => [(j, v)]
  | (j', v') :: m, j, v =>
    if j' = j then (j', v' + v) :: m else (j', v') :: accAdd m j v

/-- Model of `j in acc` / `acc[j]` read access (first entry wins). -/
def lookupAcc : AccMap → Int → Option ℚ
  | [], _ => none
  | (j', v') :: m, j => if j' = j then some v' else lookupAcc m j

/-- The inner indices stored in an accumulator, in insertion order. -/
def accKeys (m : AccMap) : List Int :=
  (m : List (Int × ℚ)).map Prod.fst

/-- One intermediate payload `SRC,J,VALUE`: source tag (kept verbatim as
parsed), inner index, value. -/
structure Frag where
  src : List Char
  j : Int
  v : ℚ
deriving DecidableEq

/-- Reducer state: the active key (`current_key`, initially `None`) and the
two per-source accumulators. -/
structure RState where
  current_key : Option (Int × Int)
  Avals : AccMap
  Bvals : AccMap
deriving DecidableEq

/-- Initial reducer state. -/
def initR : RState := ⟨none, [], []⟩

/-- The running total computed by `flush`'s loop:
`for j, a in A.items(): if j in B: total += a * B[j]`. -/
def dotTotal (A B : AccMap) : ℚ :=
  (A : List (Int × ℚ)).foldl
    (fun t p =>
      match lookupAcc B p.1 with
      | some b => t + p.2 * b
      | none => t) 0

/-- Model of `flush(key, A, B)` in `reducer.py`: nothing for the `None` key;
otherwise emit the triple `(i, k, total)` only when `total != 0.0`. -/
def flush : Option (Int × Int) → AccMap → AccMap → List (Int × Int × ℚ)
  | none, _, _ => []
  | some (i, k), A, B =>
    if dotTotal A B = 0 then [] else [(i, k, dotTotal A B)]

/-- The total as the specification words it: the sum, over every inner index
`j` present in both accumulators, of `A[j] * B[j]`. -/
def totalSpec (A B : AccMap) : ℚ :=
  (((accKeys A).filter (fun j => (lookupAcc B j).isSome)).map
    (fun j => (lookupAcc A j).getD 0 * (lookupAcc B j).getD 0)).sum

/-- Accumulation of one fragment into the `(Avals, Bvals)` pair: the branch
`if src == 'A': Avals[j] += v else: Bvals[j] += v`.  Note the comparison with
the exact string `A`; every other tag falls into the `Bvals` branch. -/
def accStep (ab : AccMap × AccMap) (f : Frag) : AccMap × AccMap :=
  if f.src = ['A'] then (accAdd ab.1 f.j f.v, ab.2) else (ab.1, accAdd ab.2 f.j f.v)

/-- Accumulate a fragment into the reducer state. -/
def addFrag (st : RState) (f : Frag) : RState :=
  let ab := accStep (st.Avals, st.Bvals) f
  { st with Avals := ab.1, Bvals := ab.2 }

/-- One loop iteration of the reducer on an already-parsed pair:
on a key change flush the previous key (with the old accumulators), clear
both accumulators and set the new active key; then accumulate the fragment. -/
def stepS (st : RState) (p : (Int × Int) × Frag) : RState × List (Int × Int × ℚ) :=
  if st.current_key = some p.1 then (addFrag st p.2, [])
  else (addFrag ⟨some p.1, [], []⟩ p.2, flush st.current_key st.Avals st.Bvals)

/-- The reducer main loop on parsed pairs, from a given state; after the end
of input the active key is flushed once. -/
def runSAux (st : RState) : List ((Int × Int) × Frag) → List (Int × Int × ℚ)
  | [] => flush st.current_key st.Avals st.Bvals
  | p :: ps =>
    let r := stepS st p
    r.2 ++ runSAux r.1 ps

/-- The whole reducer on a parsed stream (structured level). -/
def reduceS (l : List ((Int × Int) × Frag)) : List (Int × Int × ℚ) :=
  runSAux initR l

/-! ## Per-group fold (the pure specification the streaming loop refines) -/

/-- Accumulators obtained from a list of fragments of one group. -/
def accPair (fs : List Frag) : AccMap × AccMap :=
  fs.foldl accStep ([], [])

/-- The pure per-group join: flush applied to the key and the summed
per-source accumulators of the group's fragments. -/
def groupOut (k : Int × Int) (fs : List Frag) : List (Int × Int × ℚ) :=
  flush (some k) (accPair fs).1 (accPair fs).2

/-- Collect the maximal run of pairs extending a current group with key `k`
and fragments `fs` (most recent last), then continue with the next runs. -/
def runsWith (k : Int × Int) (fs : List Frag) :
    List ((Int × Int) × Frag) → List ((Int × Int) × List Frag)
  | [] => [(k, fs)]
  | p :: ps =>
    if p.1 = k then runsWith k (fs ++ [p.2]) ps
    else (k, fs) :: runsWith p.1 [p.2] ps

/-- Partition a stream into its maximal runs of equal adjacent keys. -/
def runsOf : List ((Int × Int) × Frag) → List ((Int × Int) × List Frag)
  | [] => []
  | p :: ps => runsWith p.1 [p.2] ps

/-- The per-group fold over the whole stream: one flush per maximal run. -/
def foldOut (l : List ((Int × Int) × Frag)) : List (Int × Int × ℚ) :=
  ((runsOf l).map (fun g => groupOut g.1 g.2)).flatten

/-- All pairs sharing a key are contiguous: no key starts two distinct runs. -/
def GroupedL (l : List ((Int × Int) × Frag)) : Prop :=
  ((runsOf l).map Prod.fst).Nodup

instance (l : List ((Int × Int) × Frag)) : Decidable (GroupedL l) := by
  unfold GroupedL
  infer_instance

/-! ## Grouped Joiner, line level -/

/-- Parse `I,K` via `map(int, key_str.split(','))` unpacked into two names:
any shape other than exactly two integer fields raises in Python. -/
def parseKey (ks : List Char) : Option (Int × Int) :=
  match splitCh ',' ks with
  | [a, b] =>
    match pyInt? a, pyInt? b with
    | some i, some k => some (i, k)
    | _, _ => none
  | _ => none

/-- Parse one (stripped, nonblank) reducer line
`I,K<TAB>SRC,J,VALUE`: split at the first tab, parse the key, split the
payload with maxsplit 2, parse the inner index and the value.  `none` models
the uncaught `ValueError` that kills the run. -/
def parseRLine (line : List Char) : Option ((Int × Int) × Frag) :=
  match splitFirst '\t' line with
  | none => none
  | some (ks, payload) =>
    match parseKey ks with
    | none => none
    | some key =>
      match split2 ',' payload with
      | none => none
      | some (src, js, vs) =>
        match pyInt? js, pyFloat? vs with
        | some j, some v => some (key, ⟨src, j, v⟩)
        | _, _ => none

/-- One iteration of the reducer on a raw line: strip, skip blank lines, else
parse and run the structured step.  `none` models the fatal parse failure. -/
def stepStr (st : RState) (raw : List Char) : Option (RState × List (Int × Int × ℚ)) :=
  let line := trimWs raw
  if line = [] then some (st, [])
  else (parseRLine line).map (fun p => stepS st p)

/-- Rendering of one output triple, `print(f"{i} {k} {total}")`. -/
def renderOut (o : Int × Int × ℚ) : List Char :=
  intChars o.1 ++ ' ' :: intChars o.2.1 ++ ' ' :: pyRepr o.2.2

/-- The reducer main loop on raw lines from a given state.  Returns the
emitted lines and `true`, or — on a fatal parse failure — the lines emitted
before the failure and `false` (the final flush does not happen). -/
def runStrAux (st : RState) : List (List Char) → List (List Char) × Bool
  | [] => ((flush st.current_key st.Avals st.Bvals).map renderOut, true)
  | raw :: ls =>
    match stepStr st raw with
    | none => ([], false)
    | some (st2, out) =>
      let r := runStrAux st2 ls
      (out.map renderOut ++ r.1, r.2)

/-- The whole reducer on raw input lines. -/
def runStr (ls : List (List Char)) : List (List Char) × Bool :=
  runStrAux initR ls

/-- Run the reducer over an initial segment of the input only: resulting
state and lines emitted so far, or `none` if some line is fatal. -/
def runPart (st : RState) : List (List Char) → Option (RState × List (List Char))
  | [] => some (st, [])
  | raw :: ls =>
    (stepStr st raw).bind fun r =>
      (runPart r.1 ls).map fun s => (s.1, r.2.map renderOut ++ s.2)

/-- The fatal-line conditions of the specification, on one raw reducer line:
nonblank after stripping, and either no tab, or a key that is not two
comma-separated integers, or a payload whose comma field count is not 3, or a
non-integer inner index, or a non-float value. -/
def badLineRb (raw : List Char) : Bool :=
  let t := trimWs raw
  !t.isEmpty &&
    match splitFirst '\t' t with
    | none => true
    | some (ks, payload) =>
      (parseKey ks).isNone ||
      (splitCh ',' payload).length != 3 ||
      match split2 ',' payload with
      | some (_, js, vs) => (pyInt? js).isNone || (pyFloat? vs).isNone
      | none => true

/-- The reducer run as a relation between start state, input lines and
result, mirroring the branch structure of the main loop (used to state that
the joiner is deterministic). -/
inductive RunR : RState → List (List Char) → List (List Char) × Bool → Prop where
  | done : ∀ st, RunR st [] ((flush st.current_key st.Avals st.Bvals).map renderOut, true)
  | fatal : ∀ st raw ls, stepStr st raw = none → RunR st (raw :: ls) ([], false)
  | step : ∀ st raw ls st2 out res, stepStr st raw = some (st2, out) →
      RunR st2 ls res → RunR st (raw :: ls) (out.map renderOut ++ res.1, res.2)

/-! ## Key Expander (mapper.py) -/

/-- The fan-out of one recognized entry (name already uppercased): an A-entry
`(r, c, v)` yields one fragment per output column `k < MAX_K` with key
`(r, k)`; a B-entry yields one fragment per output row `i < MAX_I` with key
`(i, c)`; any other tag yields nothing. -/
def expandPairs (MI MK : ℕ) (nameU : List Char) (r c : Int) (v : ℚ) :
    List ((Int × Int) × Frag) :=
  if nameU = ['A'] then
    (List.range MK).map (fun k => ((r, (k : Int)), ⟨['A'], c, v⟩))
  else if nameU = ['B'] then
    (List.range MI).map (fun i => (((i : Int), c), ⟨['B'], r, v⟩))
  else []

/-- Rendering of one emitted `(key, fragment)` pair as the intermediate line
`I,K<TAB>SRC,J,VALUE` (the mapper's f-string). -/
def encodePair (p : (Int × Int) × Frag) : List Char :=
  intChars p.1.1 ++ ',' :: intChars p.1.2 ++ '\t' ::
    (p.2.src ++ ',' :: intChars p.2.j ++ ',' :: pyRepr p.2.v)

/-- One iteration of the mapper loop on a raw line: strip; skip blank and
`#` lines; skip lines without exactly 4 comma fields; parse `ROW`, `COL`,
`VALUE` (a failure is fatal, modelled as `none` — note this happens before
the name test); then fan out according to the uppercased name. -/
def mapperLine (MI MK : ℕ) (raw : List Char) : Option (List (List Char)) :=
  let line := trimWs raw
  if line = [] then some []
  else if line.head? = some '#' then some []
  else
    match splitCh ',' line with
    | [nameS, rS, cS, vS] =>
      match pyInt? rS, pyInt? cS, pyFloat? vS with
      | some r, some c, some v =>
        some ((expandPairs MI MK (upperL nameS) r c v).map encodePair)
      | _, _, _ => none
    | _ => some []

/-- The mapper main loop: lines emitted, and `false` if a fatal parse
failure stopped the run. -/
def mapperRun (MI MK : ℕ) : List (List Char) → List (List Char) × Bool
  | [] => ([], true)
  | raw :: ls =>
    match mapperLine MI MK raw with
    | none => ([], false)
    | some out =>
      let r := mapperRun MI MK ls
      (out ++ r.1, r.2)

/-! ## External grouping stage and the end-to-end example -/

/-- The grouping key of an intermediate line (the text before the first tab
of the stripped line), as the external shuffle sees it. -/
def lineKey (l : List Char) : Option (List Char) :=
  (splitFirst '\t' (trimWs l)).map Prod.fst

/-- The distinct line keys in order of first appearance. -/
def uniqKeys (ls : List (List Char)) : List (Option (List Char)) :=
  ls.foldl (fun acc l => if lineKey l ∈ acc then acc else acc ++ [lineKey l]) []

/-- Model of the external grouping stage on the example: all lines of one
key made contiguous, keys in order of first appearance (which on the
end-to-end example coincides with sorted key order). -/
def groupLines (ls : List (List Char)) : List (List Char) :=
  ((uniqKeys ls).map (fun k => ls.filter (fun l => lineKey l = k))).flatten

/-- The eight entry lines of the end-to-end example. -/
def inputC4 : List (List Char) :=
  ["A,0,0,1".data, "A,0,1,2".data, "A,1,0,3".data, "A,1,1,4".data,
   "B,0,0,5".data, "B,0,1,6".data, "B,1,0,7".data, "B,1,1,8".data]

/-- Expansion, grouping and join of the end-to-end example with
`MAX_I = MAX_K = 2`: the reducer's output lines. -/
def pipeC4 : List (List Char) × Bool :=
  runStr (groupLines (mapperRun 2 2 inputC4).1)

end MatMul

namespace MatMul

example : trimWs ("  a b\t".data) = "a b".data := by decide
example : splitCh ',' ("a,b,,c".data) = ["a".data, "b".data, [], "c".data] := by decide
example : splitFirst '\t' ("0,0\tA,1,2".data) = some ("0,0".data, "A,1,2".data) := by decide
example : splitFirst '\t' ("00A".data) = none := by decide
example : split2 ',' ("A,1,2,3".data) = some ("A".data, "1".data, "2,3".data) := by decide
example : split2 ',' ("A,1".data) = none := by decide
example : pyInt? (" -42 ".data) = some (-42) := by decide
example : pyInt? ("x".data) = none := by decide
example : pyFloat? ("1.0".data) = some 1 := by decide
example : pyFloat? ("-2.5".data) = some (-(5/2 : ℚ)) := by decide
example : pyFloat? ("1e2".data) = some 100 := by decide
example : pyFloat? ("2,3".data) = none := by decide
example : pyRepr 19 = "19.0".data := by decide
example : pyRepr (-(5/2 : ℚ)) = "-2.5".data := by decide
example : pyRepr (1/2 : ℚ) = "0.5".data := by decide
example : upperL ("a".data) = "A".data := by decide

example : parseRLine ("0,0\tA,1,2.0".data) = some ((0, 0), ⟨['A'], 1, 2⟩) := by decide
example : mapperLine 2 3 ("A,0,1,2".data) =
    some ["0,0\tA,1,2.0".data, "0,1\tA,1,2.0".data, "0,2\tA,1,2.0".data] := by decide
example : mapperLine 2 3 ("b,4,5,1.5".data) =
    some ["0,5\tB,4,1.5".data, "1,5\tB,4,1.5".data] := by decide
example : mapperLine 2 3 ("C,x,0,1".data) = none := by decide
example : mapperLine 2 3 ("C,1,0,1".data) = some [] := by decide
example : runStr ["0,0\tA,0,1.0".data, "0,0\tB,0,5.0".data] = (["0 0 5.0".data], true) := by decide
example : runStr ["0,0\tA,0,1.0".data, "junk".data] = ([], false) := by decide
example : badLineRb ("junk".data) = true := by decide
example : badLineRb ("  ".data) = false := by decide
example : pipeC4 =
    (["0 0 19.0".data, "0 1 22.0".data, "1 0 43.0".data, "1 1 50.0".data], true) := by decide

end MatMul

namespace MatMul

/-! ## Accumulator lemmas -/

theorem lookup_accAdd (m : AccMap) (j : Int) (v : ℚ) (j' : Int) :
    lookupAcc (accAdd m j v) j' =
      if j' = j then some ((lookupAcc m j).getD 0 + v) else lookupAcc m j' := by
  induction m with
  | nil =>
    by_cases h : j' = j
    · simp [accAdd, lookupAcc, h]
    · simp [accAdd, lookupAcc, h, Ne.symm h]
  | cons p m ih =>
    obtain ⟨j0, v0⟩ := p
    by_cases h1 : j0 = j
    · subst h1
      by_cases h2 : j' = j0 <;> simp [accAdd, lookupAcc, h2, eq_comm]
    · by_cases h2 : j' = j
      · subst h2
        simp [accAdd, lookupAcc, h1, ih]
      · by_cases h3 : j0 = j' <;> simp [accAdd, lookupAcc, h1, h2, h3, ih]

theorem isSome_lookup_of_mem_accKeys (m : AccMap) (j : Int) (h : j ∈ accKeys m) :
    (lookupAcc m j).isSome := by
  induction m with
  | nil => simp [accKeys] at h
  | cons p m ih =>
    by_cases h1 : p.1 = j
    · simp [lookupAcc, h1]
    · simp [accKeys, h1, Ne.symm h1] at h
      simpa [lookupAcc, h1] using ih (by simpa [accKeys] using h)

theorem dotTotal_foldl (B : AccMap) (A : AccMap) (t : ℚ) :
    (A.foldl
      (fun t p =>
        match lookupAcc B p.1 with
        | some b => t + p.2 * b
        | none => t) t) =
      t + (A.map (fun p => p.2 * (lookupAcc B p.1).getD 0)).sum := by
  induction A generalizing t with
  | nil => simp
  | cons p A ih =>
    cases hb : lookupAcc B p.1 <;>
      simp [List.foldl_cons, hb, ih, add_assoc]

theorem dotTotal_eq_sum (A B : AccMap) :
    dotTotal A B = (A.map (fun p => p.2 * (lookupAcc B p.1).getD 0)).sum := by
  simpa [dotTotal] using dotTotal_foldl B A 0

theorem sum_eq_totalSpec (A B : AccMap) (h : (accKeys A).Nodup) :
    (A.map (fun p => p.2 * (lookupAcc B p.1).getD 0)).sum = totalSpec A B := by
  induction A with
  | nil => simp [totalSpec, accKeys]
  | cons p A ih =>
    obtain ⟨j0, v0⟩ := p
    have hsplit : j0 ∉ List.map Prod.fst A ∧ (List.map Prod.fst A).Nodup := by
      simpa [accKeys, List.nodup_cons] using h
    have hnd : (accKeys A).Nodup := by simpa [accKeys] using hsplit.2
    have hni : j0 ∉ List.map Prod.fst A := hsplit.1
    have hcong : ∀ j ∈ (List.map Prod.fst A).filter (fun j => (lookupAcc B j).isSome),
        (lookupAcc ((j0, v0) :: A) j).getD 0 * (lookupAcc B j).getD 0 =
          (lookupAcc A j).getD 0 * (lookupAcc B j).getD 0 := by
      intro j hj
      have hjA : j ∈ List.map Prod.fst A := List.mem_of_mem_filter hj
      have hne : ¬j0 = j := fun e => hni (e ▸ hjA)
      simp [lookupAcc, hne]
    have htail := List.map_congr_left hcong
    cases hb : lookupAcc B j0 with
    | none =>
      have hts : totalSpec ((j0, v0) :: A) B = totalSpec A B := by
        simp only [totalSpec, accKeys, List.map_cons, List.filter_cons, hb]
        simp only [Option.isSome_none, Bool.false_eq_true, if_false]
        rw [htail]
      rw [List.map_cons, List.sum_cons, hts, ← ih hnd, hb]
      simp
    | some b =>
      have hts : totalSpec ((j0, v0) :: A) B = v0 * b + totalSpec A B := by
        simp only [totalSpec, accKeys, List.map_cons, List.filter_cons, hb]
        simp only [Option.isSome_some, if_true, List.map_cons, List.sum_cons]
        rw [htail]
        simp [lookupAcc, hb]
      rw [List.map_cons, List.sum_cons, hts, ← ih hnd, hb]
      simp

/-- Claim C1: for a flushed key group with per-source accumulators `AccA` and
`AccB`, the flush step computes `total` as the sum over every inner index `j`
present in both maps of `AccA[j] * AccB[j]`, and emits the triple
`(key.i, key.k, total)` exactly when `total` is nonzero; in particular, when
the two maps share no inner index, nothing is emitted.  (The accumulators of
a real run have no duplicate inner index, which is the `Nodup` hypothesis.) -/
theorem flush_emits_iff_totalSpec_ne_zero (i k : Int) (A B : AccMap)
    (h : (accKeys A).Nodup) :
    flush (some (i, k)) A B =
        (if totalSpec A B = 0 then [] else [(i, k, totalSpec A B)]) ∧
      ((∀ j : Int, lookupAcc A j = none ∨ lookupAcc B j = none) →
        flush (some (i, k)) A B = []) := by
  have htot : dotTotal A B = totalSpec A B :=
    (dotTotal_eq_sum A B).trans (sum_eq_totalSpec A B h)
  constructor
  · simp [flush, htot]
  · intro hdisj
    have hfilter : (accKeys A).filter (fun j => (lookupAcc B j).isSome) = [] := by
      refine List.filter_eq_nil_iff.mpr (fun j hj => ?_)
      rcases hdisj j with hA | hB
      · have := isSome_lookup_of_mem_accKeys A j hj
        simp [hA] at this
      · simp [hB]
    have : totalSpec A B = 0 := by simp [totalSpec, hfilter]
    simp [flush, htot, this]

/-- Witness for C1 on a concrete group: `A = {0 ↦ 1, 1 ↦ 2}`,
`B = {1 ↦ 7}`, total `2 * 7 = 14 ≠ 0`, so the triple is emitted. -/
theorem flush_emits_iff_totalSpec_ne_zero_witness :
    (accKeys [((0 : Int), (1 : ℚ)), (1, 2)]).Nodup ∧
      flush (some (3, 4)) [((0 : Int), (1 : ℚ)), (1, 2)] [((1 : Int), (7 : ℚ))] =
        (if totalSpec [((0 : Int), (1 : ℚ)), (1, 2)] [((1 : Int), (7 : ℚ))] = 0 then []
         else [(3, 4, totalSpec [((0 : Int), (1 : ℚ)), (1, 2)] [((1 : Int), (7 : ℚ))])]) :=
  ⟨by decide,
    (flush_emits_iff_totalSpec_ne_zero 3 4 [((0 : Int), (1 : ℚ)), (1, 2)]
      [((1 : Int), (7 : ℚ))] (by decide)).1⟩

end MatMul


namespace MatMul

/-! ## Duplicate accumulation and order independence (C5) -/

theorem lookup_accAdd_swap (m : AccMap) (j1 : Int) (v1 : ℚ) (j2 : Int) (v2 : ℚ) (j : Int) :
    lookupAcc (accAdd (accAdd m j1 v1) j2 v2) j =
      lookupAcc (accAdd (accAdd m j2 v2) j1 v1) j := by
  by_cases h12 : j1 = j2
  · subst h12
    by_cases h : j = j1
    · simp [lookup_accAdd, h, add_right_comm]
    · simp [lookup_accAdd, h]
  · by_cases h1 : j = j1 <;> by_cases h2 : j = j2 <;>
      simp_all [lookup_accAdd]

theorem accStep_ext (ab1 ab2 : AccMap × AccMap)
    (h : ∀ j : Int, lookupAcc ab1.1 j = lookupAcc ab2.1 j ∧
      lookupAcc ab1.2 j = lookupAcc ab2.2 j) (f : Frag) :
    ∀ j : Int, lookupAcc (accStep ab1 f).1 j = lookupAcc (accStep ab2 f).1 j ∧
      lookupAcc (accStep ab1 f).2 j = lookupAcc (accStep ab2 f).2 j := by
  intro j
  by_cases hs : f.src = ['A'] <;>
    simp [accStep, hs, lookup_accAdd, (h j).1, (h j).2, (h f.j).1, (h f.j).2]

theorem accStep_swap (ab : AccMap × AccMap) (f1 f2 : Frag) :
    ∀ j : Int,
      lookupAcc (accStep (accStep ab f1) f2).1 j = lookupAcc (accStep (accStep ab f2) f1).1 j ∧
      lookupAcc (accStep (accStep ab f1) f2).2 j = lookupAcc (accStep (accStep ab f2) f1).2 j := by
  intro j
  by_cases h1 : f1.src = ['A'] <;> by_cases h2 : f2.src = ['A'] <;>
    simp [accStep, h1, h2, lookup_accAdd_swap]

theorem foldl_accStep_ext (l : List Frag) :
    ∀ ab1 ab2 : AccMap × AccMap,
      (∀ j : Int, lookupAcc ab1.1 j = lookupAcc ab2.1 j ∧
        lookupAcc ab1.2 j = lookupAcc ab2.2 j) →
      ∀ j : Int,
        lookupAcc (l.foldl accStep ab1).1 j = lookupAcc (l.foldl accStep ab2).1 j ∧
        lookupAcc (l.foldl accStep ab1).2 j = lookupAcc (l.foldl accStep ab2).2 j := by
  induction l with
  | nil => intro ab1 ab2 h j; exact h j
  | cons f l ih => intro ab1 ab2 h j; exact ih _ _ (accStep_ext ab1 ab2 h f) j

theorem foldl_accStep_perm {l1 l2 : List Frag} (hp : l1.Perm l2) :
    ∀ ab1 ab2 : AccMap × AccMap,
      (∀ j : Int, lookupAcc ab1.1 j = lookupAcc ab2.1 j ∧
        lookupAcc ab1.2 j = lookupAcc ab2.2 j) →
      ∀ j : Int,
        lookupAcc (l1.foldl accStep ab1).1 j = lookupAcc (l2.foldl accStep ab2).1 j ∧
        lookupAcc (l1.foldl accStep ab1).2 j = lookupAcc (l2.foldl accStep ab2).2 j := by
  induction hp with
  | nil => intro ab1 ab2 h j; exact h j
  | cons x _ ih => intro ab1 ab2 h j; exact ih _ _ (accStep_ext ab1 ab2 h x) j
  | swap x y l =>
    intro ab1 ab2 h j
    have e1 := accStep_ext _ _ (accStep_ext ab1 ab2 h y) x
    have e2 := accStep_swap ab2 y x
    have e3 : ∀ j : Int,
        lookupAcc (accStep (accStep ab1 y) x).1 j =
          lookupAcc (accStep (accStep ab2 x) y).1 j ∧
        lookupAcc (accStep (accStep ab1 y) x).2 j =
          lookupAcc (accStep (accStep ab2 x) y).2 j :=
      fun j => ⟨(e1 j).1.trans (e2 j).1, (e1 j).2.trans (e2 j).2⟩
    simpa using foldl_accStep_ext l _ _ e3 j
  | trans _ _ ih1 ih2 =>
    intro ab1 ab2 h j
    have e1 := ih1 ab1 ab1 (fun _ => ⟨rfl, rfl⟩) j
    have e2 := ih2 ab1 ab2 h j
    exact ⟨e1.1.trans e2.1, e1.2.trans e2.2⟩

/-- Claim C5: two fragments with the same `(source, innerIndex)` in one key
group contribute additively — after processing both, the accumulator value at
that index is the previous value plus both fragment values, not the last one
seen — and the accumulated per-index values are independent of the order of
the fragments within the group (accumulation is commutative). -/
theorem accumulation_additive_and_order_independent :
    (∀ (m : AccMap) (j : Int) (v1 v2 : ℚ),
        lookupAcc (accAdd (accAdd m j v1) j v2) j =
          some ((lookupAcc m j).getD 0 + v1 + v2)) ∧
      (∀ fs1 fs2 : List Frag, fs1.Perm fs2 → ∀ j : Int,
        lookupAcc (accPair fs1).1 j = lookupAcc (accPair fs2).1 j ∧
          lookupAcc (accPair fs1).2 j = lookupAcc (accPair fs2).2 j) := by
  constructor
  · intro m j v1 v2
    simp [lookup_accAdd, add_assoc]
  · intro fs1 fs2 hp j
    exact foldl_accStep_perm hp ([], []) ([], []) (fun _ => ⟨rfl, rfl⟩) j

/-- Witness for C5: the duplicate A-fragments at inner index 0 of the two
permuted groups sum to the same accumulated values. -/
theorem accumulation_additive_and_order_independent_witness :
    ([⟨['A'], 0, 1⟩, ⟨['B'], 0, 2⟩, ⟨['A'], 0, 3⟩] : List Frag).Perm
        [⟨['A'], 0, 3⟩, ⟨['A'], 0, 1⟩, ⟨['B'], 0, 2⟩] ∧
      (lookupAcc (accPair [⟨['A'], 0, 1⟩, ⟨['B'], 0, 2⟩, ⟨['A'], 0, 3⟩]).1 0 =
          lookupAcc (accPair [⟨['A'], 0, 3⟩, ⟨['A'], 0, 1⟩, ⟨['B'], 0, 2⟩]).1 0 ∧
        lookupAcc (accPair [⟨['A'], 0, 1⟩, ⟨['B'], 0, 2⟩, ⟨['A'], 0, 3⟩]).2 0 =
          lookupAcc (accPair [⟨['A'], 0, 3⟩, ⟨['A'], 0, 1⟩, ⟨['B'], 0, 2⟩]).2 0) :=
  ⟨by decide,
    accumulation_additive_and_order_independent.2
      [⟨['A'], 0, 1⟩, ⟨['B'], 0, 2⟩, ⟨['A'], 0, 3⟩]
      [⟨['A'], 0, 3⟩, ⟨['A'], 0, 1⟩, ⟨['B'], 0, 2⟩] (by decide) 0⟩

end MatMul

namespace MatMul

/-! ## The streaming loop as a per-group fold (C3) -/

theorem accPair_snoc (fs : List Frag) (f : Frag) :
    accPair (fs ++ [f]) = accStep (accPair fs) f := by
  simp [accPair, List.foldl_append]

theorem addFrag_mk (k : Option (Int × Int)) (A B : AccMap) (f : Frag) :
    addFrag ⟨k, A, B⟩ f = ⟨k, (accStep (A, B) f).1, (accStep (A, B) f).2⟩ := rfl

theorem runSAux_runsWith (l : List ((Int × Int) × Frag)) :
    ∀ (k : Int × Int) (fs : List Frag),
      runSAux ⟨some k, (accPair fs).1, (accPair fs).2⟩ l =
        ((runsWith k fs l).map (fun g => groupOut g.1 g.2)).flatten := by
  induction l with
  | nil =>
    intro k fs
    simp [runSAux, runsWith, groupOut]
  | cons p ps ih =>
    intro k fs
    by_cases hk : p.1 = k
    · have hstep :
          stepS ⟨some k, (accPair fs).1, (accPair fs).2⟩ p =
            (⟨some k, (accPair (fs ++ [p.2])).1, (accPair (fs ++ [p.2])).2⟩, []) := by
        simp [stepS, hk, addFrag_mk, accPair_snoc]
      simp [runSAux, hstep, ih, runsWith, hk]
    · have hne : ¬(some k = some p.1) := by
        simp [Ne.symm hk]
      have hstep :
          stepS ⟨some k, (accPair fs).1, (accPair fs).2⟩ p =
            (⟨some p.1, (accPair [p.2]).1, (accPair [p.2]).2⟩,
              flush (some k) (accPair fs).1 (accPair fs).2) := by
        simp [stepS, hne, addFrag_mk, accPair]
      simp [runSAux, hstep, ih, runsWith, hk, groupOut]

/-- Claim C3: on a grouped stream (all pairs of one key contiguous), the
streaming Grouped Joiner computes exactly the per-group fold: partition the
stream into its maximal runs of equal keys in order and flush each run's key
with the summed per-source fragment accumulators; the last active key is
flushed exactly once at end of input, and an empty input yields no flush. -/
theorem streaming_joiner_eq_group_fold :
    (∀ l : List ((Int × Int) × Frag), GroupedL l → reduceS l = foldOut l) ∧
      reduceS [] = [] := by
  constructor
  · intro l _
    cases l with
    | nil => rfl
    | cons p ps =>
      have hstep : stepS initR p = (⟨some p.1, (accPair [p.2]).1, (accPair [p.2]).2⟩, []) := by
        simp [stepS, initR, addFrag_mk, accPair, flush]
      simp [reduceS, runSAux, hstep, runSAux_runsWith, foldOut, runsOf]
  · rfl

/-- Witness for C3 on a concrete two-group stream. -/
theorem streaming_joiner_eq_group_fold_witness :
    GroupedL [(((0 : Int), (0 : Int)), ⟨['A'], 0, 1⟩), (((0 : Int), (0 : Int)), ⟨['B'], 0, 2⟩),
        (((1 : Int), (1 : Int)), ⟨['A'], 0, 5⟩)] ∧
      reduceS [(((0 : Int), (0 : Int)), ⟨['A'], 0, 1⟩), (((0 : Int), (0 : Int)), ⟨['B'], 0, 2⟩),
          (((1 : Int), (1 : Int)), ⟨['A'], 0, 5⟩)] =
        foldOut [(((0 : Int), (0 : Int)), ⟨['A'], 0, 1⟩), (((0 : Int), (0 : Int)), ⟨['B'], 0, 2⟩),
          (((1 : Int), (1 : Int)), ⟨['A'], 0, 5⟩)] :=
  ⟨by decide,
    streaming_joiner_eq_group_fold.1
      [(((0 : Int), (0 : Int)), ⟨['A'], 0, 1⟩), (((0 : Int), (0 : Int)), ⟨['B'], 0, 2⟩),
        (((1 : Int), (1 : Int)), ⟨['A'], 0, 5⟩)] (by decide)⟩

end MatMul

namespace MatMul

/-! ## Key Expander fan-out (C2) and skip behavior (C7) -/

theorem mapperRun_cons_skip (MI MK : ℕ) (raw : List Char) (ls : List (List Char))
    (h : mapperLine MI MK raw = some []) :
    mapperRun MI MK (raw :: ls) = mapperRun MI MK ls := by
  simp [mapperRun, h]

/-- Claim C2: a valid A-entry `(row=r, col=c, value=v)` makes the Key
Expander emit exactly `MAX_K` pairs, the `k`-th being
`(OutputKey (r, k), Fragment A c v)` for `k = 0, …, MAX_K - 1` in increasing
order; a valid B-entry `(row=r, col=c, value=v)` makes it emit exactly
`MAX_I` pairs, the `i`-th being `(OutputKey (i, c), Fragment B r v)`. -/
theorem mapper_fanout :
    (∀ (MI MK : ℕ) (raw nameS rS cS vS : List Char) (r c : Int) (v : ℚ),
        trimWs raw ≠ [] →
        (trimWs raw).head? ≠ some '#' →
        splitCh ',' (trimWs raw) = [nameS, rS, cS, vS] →
        pyInt? rS = some r → pyInt? cS = some c → pyFloat? vS = some v →
        upperL nameS = ['A'] →
        mapperLine MI MK raw =
          some ((List.range MK).map
            (fun k => encodePair ((r, (k : Int)), ⟨['A'], c, v⟩)))) ∧
      (∀ (MI MK : ℕ) (raw nameS rS cS vS : List Char) (r c : Int) (v : ℚ),
        trimWs raw ≠ [] →
        (trimWs raw).head? ≠ some '#' →
        splitCh ',' (trimWs raw) = [nameS, rS, cS, vS] →
        pyInt? rS = some r → pyInt? cS = some c → pyFloat? vS = some v →
        upperL nameS = ['B'] →
        mapperLine MI MK raw =
          some ((List.range MI).map
            (fun i => encodePair (((i : Int), c), ⟨['B'], r, v⟩)))) := by
  constructor
  · intro MI MK raw nameS rS cS vS r c v h0 h1 hs hr hc hv hup
    simp [mapperLine, h0, h1, hs, hr, hc, hv, hup, expandPairs, List.map_map,
      Function.comp]
  · intro MI MK raw nameS rS cS vS r c v h0 h1 hs hr hc hv hup
    have hne : upperL nameS ≠ ['A'] := by
      rw [hup]; decide
    simp [mapperLine, h0, h1, hs, hr, hc, hv, hup, hne, expandPairs, List.map_map,
      Function.comp]

/-- Witness for C2: the lowercase entry `a,3,4,2.5` with `MAX_K = 2` fans out
to the two keys `(3, 0)` and `(3, 1)`. -/
theorem mapper_fanout_witness :
    upperL ("a".data) = ['A'] ∧
      mapperLine 1 2 ("a,3,4,2.5".data) =
        some ((List.range 2).map
          (fun k => encodePair (((3 : Int), (k : Int)), ⟨['A'], 4, 5/2⟩))) :=
  ⟨by decide,
    mapper_fanout.1 1 2 ("a,3,4,2.5".data) "a".data ("3".data) "4".data ("2.5".data) 3 4 (5/2)
      (by decide) (by decide) (by decide) (by decide) (by decide) (by decide) (by decide)⟩

/-- Claim C7 (amended): a Key Expander line that is blank after stripping,
starts with `#`, or does not have exactly 4 comma fields is skipped silently;
and a 4-field line whose `ROW`/`COL` parse as integers and `VALUE` as a float
but whose name, uppercased, is neither `A` nor `B` is dropped silently.
(The amendment: the numeric fields are parsed *before* the name test, so a
4-field line with an unrecognized name and a malformed number is a fatal
error, not a silent drop — see the counterexample.) -/
theorem mapper_skip_and_unknown_name_drop :
    (∀ (MI MK : ℕ) (raw : List Char) (ls : List (List Char)),
        (trimWs raw = [] ∨ (trimWs raw).head? = some '#' ∨
          (splitCh ',' (trimWs raw)).length ≠ 4) →
        mapperLine MI MK raw = some [] ∧
          mapperRun MI MK (raw :: ls) = mapperRun MI MK ls) ∧
      (∀ (MI MK : ℕ) (raw : List Char) (ls : List (List Char))
          (nameS rS cS vS : List Char) (r c : Int) (v : ℚ),
        splitCh ',' (trimWs raw) = [nameS, rS, cS, vS] →
        pyInt? rS = some r → pyInt? cS = some c → pyFloat? vS = some v →
        upperL nameS ≠ ['A'] → upperL nameS ≠ ['B'] →
        mapperLine MI MK raw = some [] ∧
          mapperRun MI MK (raw :: ls) = mapperRun MI MK ls) := by
  constructor
  · intro MI MK raw ls hyp
    by_cases h0 : trimWs raw = []
    · have hline : mapperLine MI MK raw = some [] := by simp [mapperLine, h0]
      exact ⟨hline, mapperRun_cons_skip MI MK raw ls hline⟩
    · by_cases h1 : (trimWs raw).head? = some '#'
      · have hline : mapperLine MI MK raw = some [] := by simp [mapperLine, h0, h1]
        exact ⟨hline, mapperRun_cons_skip MI MK raw ls hline⟩
      · have hlen : (splitCh ',' (trimWs raw)).length ≠ 4 := by
          rcases hyp with h | h | h
          · exact absurd h h0
          · exact absurd h h1
          · exact h
        have hline : mapperLine MI MK raw = some [] := by
          rcases hs : splitCh ',' (trimWs raw) with _ | ⟨a, _ | ⟨b, _ | ⟨c, _ | ⟨d, _ | ⟨e, tl⟩⟩⟩⟩⟩ <;>
            first
              | (simp [mapperLine, h0, h1, hs]; done)
              | (exfalso; rw [hs] at hlen; simp at hlen)
        exact ⟨hline, mapperRun_cons_skip MI MK raw ls hline⟩
  · intro MI MK raw ls nameS rS cS vS r c v hs hr hc hv hA hB
    have h0 : trimWs raw ≠ [] := by
      intro h
      rw [h] at hs
      simp [splitCh] at hs
    by_cases h1 : (trimWs raw).head? = some '#'
    · have hline : mapperLine MI MK raw = some [] := by simp [mapperLine, h0, h1]
      exact ⟨hline, mapperRun_cons_skip MI MK raw ls hline⟩
    · have hline : mapperLine MI MK raw = some [] := by
        simp [mapperLine, h0, h1, hs, hr, hc, hv, expandPairs, hA, hB]
      exact ⟨hline, mapperRun_cons_skip MI MK raw ls hline⟩

/-- Witness for C7 (amended): a comment line is skipped, and the well-formed
unknown-name entry `C,1,0,1` is dropped while the run continues. -/
theorem mapper_skip_and_unknown_name_drop_witness :
    (mapperLine 2 2 ("# comment".data) = some [] ∧
        mapperRun 2 2 ["# comment".data] = mapperRun 2 2 []) ∧
      (mapperLine 2 2 ("C,1,0,1".data) = some [] ∧
        mapperRun 2 2 ["C,1,0,1".data, "A,0,0,1".data] = mapperRun 2 2 ["A,0,0,1".data]) :=
  ⟨mapper_skip_and_unknown_name_drop.1 2 2 ("# comment".data) [] (by decide),
    mapper_skip_and_unknown_name_drop.2 2 2 ("C,1,0,1".data) ["A,0,0,1".data]
      "C".data ("1".data) "0".data ("1".data) 1 0 1
      (by decide) (by decide) (by decide) (by decide) (by decide) (by decide)⟩

/-- Counterexample to C7 as stated: `C,x,0,1` has 4 fields and a name that is
neither `A` nor `B`, yet the run aborts on it (the `int` parse of `x` raises
before the name test) instead of dropping it and continuing. -/
theorem mapper_unknown_name_not_always_dropped :
    (splitCh ',' (trimWs ("C,x,0,1".data))).length = 4 ∧
      upperL ("C".data) ≠ ['A'] ∧ upperL ("C".data) ≠ ['B'] ∧
      mapperLine 2 2 ("C,x,0,1".data) = none ∧
      mapperRun 2 2 ["C,x,0,1".data, "A,0,0,1".data] = ([], false) ∧
      mapperRun 2 2 ["A,0,0,1".data] ≠ ([], false) := by
  decide

end MatMul

namespace MatMul

/-! ## Fatal parse failures of the Grouped Joiner (C6) -/

theorem mem_dropWhile_of_neg {α : Type} (p : α → Bool) (c : α) (l : List α)
    (hm : c ∈ l) (hp : p c = false) : c ∈ l.dropWhile p := by
  induction l with
  | nil => simp at hm
  | cons x xs ih =>
    by_cases hx : p x
    · rcases List.mem_cons.mp hm with rfl | hm2
      · rw [hx] at hp; cases hp
      · simpa [List.dropWhile_cons, hx] using ih hm2
    · simpa [List.dropWhile_cons, hx] using hm

theorem mem_trimWs (c : Char) (l : List Char) (hm : c ∈ l) (hp : pyWsChar c = false) :
    c ∈ trimWs l := by
  unfold trimWs
  rw [List.mem_reverse]
  refine mem_dropWhile_of_neg _ _ _ ?_ hp
  rw [List.mem_reverse]
  exact mem_dropWhile_of_neg _ _ _ hm hp

theorem digit_of_mem_takeWhile (c : Char) (l : List Char)
    (hm : c ∈ l.takeWhile Char.isDigit) : Char.isDigit c = true :=
  (List.all_eq_true.mp (List.all_takeWhile (l := l))) c hm

theorem pyExpDigits_no_comma (m : ℚ) (pos : Bool) (r2 : List Char) (q : ℚ)
    (h : pyExpDigits m pos r2 = some q) (hc : ',' ∈ r2) : False := by
  unfold pyExpDigits at h
  by_cases he : r2.isEmpty
  · simp [he] at h
  · by_cases ha : r2.all Char.isDigit
    · have := List.all_eq_true.mp ha ',' hc
      simp [Char.isDigit] at this
    · simp [he, ha] at h

theorem pyExpPart_no_comma (m : ℚ) (r : List Char) (q : ℚ)
    (h : pyExpPart m r = some q) (hc : ',' ∈ r) : False := by
  cases r with
  | nil => simp at hc
  | cons c r2 =>
    simp only [pyExpPart] at h
    by_cases he : c = 'e' ∨ c = 'E'
    · rw [if_pos he] at h
      have hcc : ',' ∈ r2 := by
        rcases List.mem_cons.mp hc with rfl | h2
        · rcases he with he | he <;> cases he
        · exact h2
      cases r2 with
      | nil => simp at hcc
      | cons c2 t =>
        simp only [pyExpSign] at h
        by_cases h2 : c2 = '+'
        · rw [if_pos h2] at h
          have : ',' ∈ t := by
            rcases List.mem_cons.mp hcc with rfl | ht
            · cases h2
            · exact ht
          exact pyExpDigits_no_comma m true t q h this
        · rw [if_neg h2] at h
          by_cases h3 : c2 = '-'
          · rw [if_pos h3] at h
            have : ',' ∈ t := by
              rcases List.mem_cons.mp hcc with rfl | ht
              · cases h3
              · exact ht
            exact pyExpDigits_no_comma m false t q h this
          · rw [if_neg h3] at h
            exact pyExpDigits_no_comma m true (c2 :: t) q h hcc
    · simp [he] at h

theorem pyFloatCore_no_comma (l : List Char) (q : ℚ)
    (h : pyFloatCore l = some q) (hc : ',' ∈ l) : False := by
  have hsplit : ',' ∈ l.takeWhile Char.isDigit ++ l.dropWhile Char.isDigit := by
    rw [List.takeWhile_append_dropWhile]; exact hc
  have hcr : ',' ∈ l.dropWhile Char.isDigit := by
    rcases List.mem_append.mp hsplit with hm | hm
    · have := digit_of_mem_takeWhile ',' l hm
      simp [Char.isDigit] at this
    · exact hm
  unfold pyFloatCore at h
  rcases hr : l.dropWhile Char.isDigit with _ | ⟨c1, r2⟩
  · rw [hr] at hcr; simp at hcr
  · rw [hr] at hcr h
    simp only [pyFloatTail] at h
    by_cases hdot : c1 = '.'
    · rw [if_pos hdot] at h
      have hcr2 : ',' ∈ r2 := by
        rcases List.mem_cons.mp hcr with rfl | h2
        · cases hdot
        · exact h2
      have hcr3 : ',' ∈ r2.dropWhile Char.isDigit := by
        have hsp2 : ',' ∈ r2.takeWhile Char.isDigit ++ r2.dropWhile Char.isDigit := by
          rw [List.takeWhile_append_dropWhile]; exact hcr2
        rcases List.mem_append.mp hsp2 with hm | hm
        · have := digit_of_mem_takeWhile ',' r2 hm
          simp [Char.isDigit] at this
        · exact hm
      by_cases hemp : (l.takeWhile Char.isDigit).isEmpty && (r2.takeWhile Char.isDigit).isEmpty
      · rw [if_pos hemp] at h; cases h
      · rw [if_neg hemp] at h
        exact pyExpPart_no_comma _ _ q h hcr3
    · rw [if_neg hdot] at h
      by_cases hemp : (l.takeWhile Char.isDigit).isEmpty
      · rw [if_pos hemp] at h; cases h
      · rw [if_neg hemp] at h
        exact pyExpPart_no_comma _ _ q h hcr

theorem pyFloat_no_comma (l : List Char) (hc : ',' ∈ l) : pyFloat? l = none := by
  cases hv : pyFloat? l with
  | none => rfl
  | some q =>
    exfalso
    have hct : ',' ∈ trimWs l := mem_trimWs ',' l hc (by decide)
    unfold pyFloat? at hv
    rcases ht : trimWs l with _ | ⟨c, r⟩
    · rw [ht] at hct; simp at hct
    · rw [ht] at hct hv
      simp only at hv
      by_cases hp : c = '+'
      · rw [if_pos hp] at hv
        have : ',' ∈ r := by
          rcases List.mem_cons.mp hct with rfl | h2
          · cases hp
          · exact h2
        exact pyFloatCore_no_comma r q hv this
      · rw [if_neg hp] at hv
        by_cases hm : c = '-'
        · rw [if_pos hm] at hv
          have : ',' ∈ r := by
            rcases List.mem_cons.mp hct with rfl | h2
            · cases hm
            · exact h2
          rcases Option.map_eq_some'.mp hv with ⟨q2, hq2, _⟩
          exact pyFloatCore_no_comma r q2 hq2 this
        · rw [if_neg hm] at hv
          exact pyFloatCore_no_comma (c :: r) q hv hct

theorem sep_mem_joinWith (sep : Char) (x y : List Char) (xs : List (List Char)) :
    sep ∈ joinWith sep (x :: y :: xs) := by
  simp [joinWith]

theorem badLine_fatal (raw : List Char) (h : badLineRb raw = true) (st : RState) :
    stepStr st raw = none := by
  unfold badLineRb at h
  rw [Bool.and_eq_true] at h
  obtain ⟨h1, h2⟩ := h
  have hne : ¬trimWs raw = [] := by
    intro he
    rw [he] at h1
    simp at h1
  suffices hpl : parseRLine (trimWs raw) = none by
    simp [stepStr, hne, hpl]
  rcases hsf : splitFirst '\t' (trimWs raw) with _ | ⟨ks, payload⟩
  · simp [parseRLine, hsf]
  · rw [hsf] at h2
    simp only [Bool.or_eq_true] at h2
    cases h2 with
    | inr hmatch =>
      revert hmatch
      cases hs2 : split2 ',' payload with
      | none =>
        intro hmatch
        cases hpk : parseKey ks <;> simp [parseRLine, hsf, hpk, hs2]
      | some t =>
        obtain ⟨src, js, vs⟩ := t
        intro hmatch
        simp only [Bool.or_eq_true] at hmatch
        rcases hmatch with hji | hfv
        · have hji2 : pyInt? js = none := Option.isNone_iff_eq_none.mp hji
          cases hpk : parseKey ks <;>
            cases hfv : pyFloat? vs <;>
              simp [parseRLine, hsf, hpk, hs2, hji2, hfv]
        · have hfv2 : pyFloat? vs = none := Option.isNone_iff_eq_none.mp hfv
          cases hpk : parseKey ks <;>
            cases hji : pyInt? js <;>
              simp [parseRLine, hsf, hpk, hs2, hji, hfv2]
    | inl h3 =>
    cases h3 with
    | inl hk =>
      have hk2 : parseKey ks = none := Option.isNone_iff_eq_none.mp hk
      simp [parseRLine, hsf, hk2]
    | inr hlen =>
      have hlen2 : (splitCh ',' payload).length ≠ 3 := by
        intro he
        rw [bne_eq_false_iff_eq.mpr he] at hlen
        cases hlen
      rcases hs2 : splitCh ',' payload with _ | ⟨a, _ | ⟨b, _ | ⟨c, _ | ⟨d, tl⟩⟩⟩⟩
      · cases hpk : parseKey ks <;> simp [parseRLine, hsf, hpk, split2, hs2]
      · cases hpk : parseKey ks <;> simp [parseRLine, hsf, hpk, split2, hs2]
      · cases hpk : parseKey ks <;> simp [parseRLine, hsf, hpk, split2, hs2]
      · exfalso; rw [hs2] at hlen2; simp at hlen2
      · have hfl : pyFloat? (joinWith ',' (c :: d :: tl)) = none :=
          pyFloat_no_comma _ (sep_mem_joinWith ',' c d tl)
        cases hpk : parseKey ks <;>
          cases hji : pyInt? b <;>
            simp [parseRLine, hsf, hpk, split2, hs2, hji, hfl]

theorem runPart_append (pre : List (List Char)) :
    ∀ (st s : RState) (out : List (List Char)) (rest : List (List Char)),
      runPart st pre = some (s, out) →
      runStrAux st (pre ++ rest) =
        (out ++ (runStrAux s rest).1, (runStrAux s rest).2) := by
  induction pre with
  | nil =>
    intro st s out rest h
    simp only [runPart, Option.some.injEq, Prod.mk.injEq] at h
    obtain ⟨h1, h2⟩ := h
    subst h1
    subst h2
    rfl
  | cons raw ls ih =>
    intro st s out rest h
    simp only [runPart] at h
    cases hst : stepStr st raw with
    | none => rw [hst] at h; simp at h
    | some r =>
      obtain ⟨st2, out2⟩ := r
      rw [hst] at h
      simp only [Option.some_bind] at h
      cases hrp : runPart st2 ls with
      | none => rw [hrp] at h; simp at h
      | some q =>
        rw [hrp] at h
        simp only [Option.map_some', Option.some.injEq, Prod.mk.injEq] at h
        obtain ⟨h1, h2⟩ := h
        simp only [List.cons_append, runStrAux, hst, List.append_eq]
        rw [ih st2 q.1 q.2 rest (by rw [hrp])]
        rw [h1, ← h2, List.append_assoc]

/-- Claim C6 (amended): every Grouped Joiner input line that is nonblank
after stripping and lacks a tab separator, or whose key does not parse as two
comma-separated integers, or whose payload does not split into exactly 3
comma fields, or whose inner index is not an integer or value not a float,
terminates the run with a fatal parse failure — no further lines are
processed and there is no final flush — while the lines already emitted for
earlier complete groups are preserved.  (The amendment: a line that is blank
after stripping also lacks a tab but is skipped, not fatal — see the
counterexample.) -/
theorem joiner_bad_line_fatal_preserves_earlier_output
    (pre post : List (List Char)) (raw : List Char)
    (s : RState) (out : List (List Char))
    (h1 : runPart initR pre = some (s, out)) (h2 : badLineRb raw = true) :
    runStr (pre ++ raw :: post) = (out, false) := by
  rw [runStr, runPart_append pre initR s out (raw :: post) h1]
  have hfat := badLine_fatal raw h2 s
  simp [runStrAux, hfat]

/-- Witness for C6 (amended): after the complete `(0,0)` group is flushed,
the tabless line `garbage` kills the run; the flushed line survives, the
lines after the bad one are not processed. -/
theorem joiner_bad_line_fatal_preserves_earlier_output_witness :
    badLineRb ("garbage".data) = true ∧
      runStr ["0,0\tA,0,1.0".data, "0,0\tB,0,5.0".data, "1,1\tA,0,1.0".data,
          "garbage".data, "1,1\tB,0,1.0".data] =
        (["0 0 5.0".data], false) :=
  ⟨by decide,
    joiner_bad_line_fatal_preserves_earlier_output
      ["0,0\tA,0,1.0".data, "0,0\tB,0,5.0".data, "1,1\tA,0,1.0".data]
      ["1,1\tB,0,1.0".data] "garbage".data
      ⟨some (1, 1), [(0, 1)], []⟩ ["0 0 5.0".data] (by decide) (by decide)⟩

/-- Counterexample to C6 as stated: the empty line lacks a tab separator,
yet the Grouped Joiner skips it and keeps processing instead of failing. -/
theorem joiner_blank_tabless_line_not_fatal :
    splitFirst '\t' (trimWs ("".data)) = none ∧
      runStr ["".data, "0,0\tA,0,1.0".data, "0,0\tB,0,2.0".data] =
        (["0 0 2.0".data], true) := by
  decide

/-! ## Source tags other than `A` (C9) and blank lines (C10) -/

/-- Claim C9: a well-formed reducer line whose fragment source tag is any
string other than exactly `A` — lowercase `a` included — is processed, not
dropped, and its value is accumulated into the B accumulator at its inner
index, leaving the A accumulator unchanged. -/
theorem joiner_nonA_tag_accumulates_into_B (st : RState) (raw : List Char)
    (key : Int × Int) (f : Frag)
    (hp : parseRLine (trimWs raw) = some (key, f)) (hs : f.src ≠ ['A']) :
    stepStr st raw = some (stepS st (key, f)) ∧
      ∀ st2 : RState, addFrag st2 f = { st2 with Bvals := accAdd st2.Bvals f.j f.v } := by
  constructor
  · have hne : trimWs raw ≠ [] := by
      intro h
      rw [h] at hp
      simp [parseRLine, splitFirst] at hp
    simp [stepStr, hne, hp]
  · intro st2
    simp [addFrag, accStep, hs]

/-- Witness for C9: the line `0,0<TAB>a,1,2.0` with lowercase source tag `a`
goes to the B accumulator. -/
theorem joiner_nonA_tag_accumulates_into_B_witness :
    parseRLine (trimWs ("0,0\ta,1,2.0".data)) = some ((0, 0), ⟨['a'], 1, 2⟩) ∧
      stepStr initR ("0,0\ta,1,2.0".data) = some (stepS initR ((0, 0), ⟨['a'], 1, 2⟩)) ∧
      addFrag initR ⟨['a'], 1, 2⟩ = { initR with Bvals := accAdd initR.Bvals 1 2 } :=
  ⟨by decide,
    (joiner_nonA_tag_accumulates_into_B initR ("0,0\ta,1,2.0".data) (0, 0) ⟨['a'], 1, 2⟩
      (by decide) (by decide)).1,
    (joiner_nonA_tag_accumulates_into_B initR ("0,0\ta,1,2.0".data) (0, 0) ⟨['a'], 1, 2⟩
      (by decide) (by decide)).2 initR⟩

/-- Claim C10: a reducer input line that strips to nothing is skipped before
any tab or field parsing — the state (active key and accumulators) is
unchanged, nothing is emitted, and the run continues with the next line. -/
theorem joiner_blank_line_skipped (st : RState) (raw : List Char)
    (rest : List (List Char)) (h : trimWs raw = []) :
    stepStr st raw = some (st, []) ∧
      runStrAux st (raw :: rest) = runStrAux st rest := by
  have h1 : stepStr st raw = some (st, []) := by simp [stepStr, h]
  refine ⟨h1, ?_⟩
  simp [runStrAux, h1]

/-- Witness for C10: a whitespace-only line is skipped. -/
theorem joiner_blank_line_skipped_witness :
    trimWs (" \t ".data) = [] ∧
      stepStr initR (" \t ".data) = some (initR, []) ∧
      runStrAux initR [" \t ".data, "0,0\tA,0,1.0".data] =
        runStrAux initR ["0,0\tA,0,1.0".data] :=
  ⟨by decide,
    (joiner_blank_line_skipped initR (" \t ".data) ["0,0\tA,0,1.0".data] (by decide)).1,
    (joiner_blank_line_skipped initR (" \t ".data) ["0,0\tA,0,1.0".data] (by decide)).2⟩

end MatMul

namespace MatMul

/-! ## Determinism of the Grouped Joiner (C8) and the end-to-end example (C4) -/

theorem runR_of_runStrAux (ls : List (List Char)) :
    ∀ st : RState, RunR st ls (runStrAux st ls) := by
  induction ls with
  | nil => intro st; exact RunR.done st
  | cons raw ls ih =>
    intro st
    cases hst : stepStr st raw with
    | none =>
      have : runStrAux st (raw :: ls) = ([], false) := by simp [runStrAux, hst]
      rw [this]
      exact RunR.fatal st raw ls hst
    | some r =>
      have : runStrAux st (raw :: ls) =
          (r.2.map renderOut ++ (runStrAux r.1 ls).1, (runStrAux r.1 ls).2) := by
        obtain ⟨st2, out2⟩ := r
        simp [runStrAux, hst]
      rw [this]
      exact RunR.step st raw ls r.1 r.2 (runStrAux r.1 ls) (by rw [hst]) (ih r.1)

/-- Claim C8: the Grouped Joiner is deterministic — any two runs on the
identical input stream from the same state produce the same result, byte for
byte (same output lines in the same order and the same termination status). -/
theorem joiner_deterministic (st : RState) (ls : List (List Char))
    (r1 r2 : List (List Char) × Bool)
    (h1 : RunR st ls r1) (h2 : RunR st ls r2) : r1 = r2 := by
  induction h1 generalizing r2 with
  | done st =>
    cases h2 with
    | done => rfl
  | fatal st raw ls hnone =>
    cases h2 with
    | fatal => rfl
    | step _ _ _ st2 out res hsome _ => rw [hnone] at hsome; cases hsome
  | step st raw ls st2 out res hsome hrun ih =>
    cases h2 with
    | fatal _ _ _ hnone => rw [hsome] at hnone; cases hnone
    | step _ _ _ st3 out3 res3 hsome3 hrun3 =>
      rw [hsome] at hsome3
      injection hsome3 with he
      obtain ⟨he1, he2⟩ := Prod.mk.injEq _ _ _ _ ▸ he
      subst he1
      subst he2
      rw [ih res3 hrun3]

/-- Witness for C8: two derivations for the same concrete stream — one built
by hand, one from the executable run — give the same result. -/
theorem joiner_deterministic_witness :
    ((["0 0 5.0".data], true) : List (List Char) × Bool) =
      runStr ["0,0\tA,0,1.0".data, "0,0\tB,0,5.0".data] := by
  refine joiner_deterministic initR ["0,0\tA,0,1.0".data, "0,0\tB,0,5.0".data] _ _
    ?_ (runR_of_runStrAux _ initR)
  refine RunR.step initR _ _ ⟨some (0, 0), [(0, 1)], []⟩ [] (["0 0 5.0".data], true)
    (by decide) ?_
  refine RunR.step _ _ _ ⟨some (0, 0), [(0, 1)], [(0, 5)]⟩ [] (["0 0 5.0".data], true)
    (by decide) ?_
  exact show RunR _ [] (["0 0 5.0".data], true) from RunR.done _

/-- Counterexample to C4 as stated: on the end-to-end example the Grouped
Joiner prints the totals with Python float formatting, so the output lines
are `0 0 19.0` etc., not `0 0 19` etc. -/
theorem endtoend_example_claimed_lines_wrong :
    pipeC4.1 ≠ ["0 0 19".data, "0 1 22".data, "1 0 43".data, "1 1 50".data] := by
  decide

/-- Claim C4 (amended): expanding the eight example entries with
`MAX_I = MAX_K = 2`, grouping by key and joining produces exactly the lines
`0 0 19.0`, `0 1 22.0`, `1 0 43.0`, `1 1 50.0` in key order, with a clean
termination.  (The amendment: the emitted totals carry Python's float
rendering with a trailing `.0`.) -/
theorem endtoend_example_lines :
    pipeC4 = (["0 0 19.0".data, "0 1 22.0".data, "1 0 43.0".data, "1 1 50.0".data], true) := by
  decide

end MatMul
